import Mathlib

/-!
Verification development for the ingestion-and-retrieval pipeline of a
RAG chatbot (web crawler, text chunker, cosine-similarity retriever,
generation dispatcher).  JavaScript sources are shallowly embedded:
strings stay `String` (with character-list implementations of the JS
string methods, so that terms evaluate), JS numbers used as indices
become `Int` (subtraction may go negative), float vectors become
`List ℚ`, thrown exceptions become `Except`, and `null` becomes
`Option`.
-/

/-! ### JS string primitives -/

/-- One step (right to left) of splitting on `/\s+/`.  The state is the
token list for the suffix already processed together with a flag telling
whether that suffix starts with a whitespace character (so that a further
whitespace character extends the same separator run instead of opening a
new one). -/
def splitWsStep (c : Char) : List String × Bool → List String × Bool
  | (tokens, flag) =>
    if c.isWhitespace then
      if flag then (tokens, true) else ("" :: tokens, true)
    else
      match tokens with
      | [] => ([String.singleton c], false)   -- unreachable: the token list is never empty
      | h :: t => ((String.singleton c ++ h) :: t, false)

/-- Model of JS `text.split(/\s+/)`: separators are maximal whitespace
runs; the result lists the substrings between them, including an empty
leading token when the text starts with whitespace, an empty trailing
token when it ends with whitespace, and `[""]` for the empty text. -/
def jsSplitWs (s : String) : List String :=
  (s.toList.foldr splitWsStep ([""], false)).1

/-- Model of JS `String.prototype.trim()`. -/
def jsTrim (s : String) : String :=
  String.mk (((s.toList.dropWhile (fun c => c.isWhitespace)).reverse.dropWhile
    (fun c => c.isWhitespace)).reverse)

/-- Model of JS `String.prototype.toLowerCase()` (ASCII range, which is
all the source applies it to). -/
def jsToLower (s : String) : String :=
  String.mk (s.toList.map Char.toLower)

/-- `containsSub haystack needle` is true when `needle` occurs as a
contiguous sublist of `haystack`. -/
def containsSub : List Char → List Char → Bool
  | [], needle => needle.isEmpty
  | h :: t, needle => needle.isPrefixOf (h :: t) || containsSub t needle

/-- Model of JS `String.prototype.includes(sub)`. -/
def jsIncludes (s sub : String) : Bool :=
  containsSub s.toList sub.toList

/-- Model of JS `Array.prototype.slice(start, end)`: negative indices
count from the end of the array, both indices are clamped to `[0, n]`. -/
def jsSlice {α : Type} (l : List α) (s e : Int) : List α :=
  let n : Int := l.length
  let s' := (if s < 0 then max (n + s) 0 else min s n).toNat
  let e' := (if e < 0 then max (n + e) 0 else min e n).toNat
  (l.take e').drop s'

/-- Model of JS `Array.prototype.join(sep)`. -/
def jsJoin (sep : String) : List String → String
  | [] => ""
  | [x] => x
  | x :: y :: rest => x ++ sep ++ jsJoin sep (y :: rest)

/-- Model of JS `[...new Set(xs)]`: deduplication keeping first
occurrences in order. -/
def jsDedup (l : List String) : List String :=
  l.foldl (fun acc x => if x ∈ acc then acc else acc ++ [x]) []

example : jsSplitWs "a b c d e f g h i j" =
    ["a", "b", "c", "d", "e", "f", "g", "h", "i", "j"] := by decide

example : jsSplitWs "  a  b " = ["", "a", "b", ""] := by decide

example : jsSplitWs "" = [""] := by decide

/-! ### Text utilities (utils/textUtils.js) -/

/-- The loop of `chunkText`: `for (let i = 0; i < words.length; i += chunkSize - overlap)`
with body `chunk = words.slice(i, i + chunkSize).join(' '); if (chunk.trim()) push(chunk.trim())`.
The loop index is an `Int` (the stride `chunkSize - overlap` may be zero or
negative, in which case the JS loop never exits); `fuel` bounds the number of
iterations the model is willing to run, `none` meaning the bound was hit. -/
def chunkLoop (words : List String) (chunkSize overlap : Int) :
    Nat → Int → List String → Option (List String)
  | 0, _, _ => none
  | fuel + 1, i, acc =>
    if i < (words.length : Int) then
      let chunk := jsTrim (jsJoin " " (jsSlice words i (i + chunkSize)))
      chunkLoop words chunkSize overlap fuel (i + (chunkSize - overlap))
        (if chunk = "" then acc else acc ++ [chunk])
    else
      some acc

/-- `chunkText(text, chunkSize, overlap)` from utils/textUtils.js.  When the
stride `chunkSize - overlap` is at least 1 the loop performs at most
`words.length` iterations, so fuel `words.length + 1` always suffices and the
result is `some` of the JS return value; with stride `≤ 0` the JS loop never
terminates and the model returns `none`. -/
def chunkText (text : String) (chunkSize overlap : Int) : Option (List String) :=
  let words := jsSplitWs text
  chunkLoop words chunkSize overlap (words.length + 1) 0 []

/-- Totalized `chunkText` for the indexing call sites, which use the fixed
arguments `500, 50` (stride 450 ≥ 1, so the underlying value is `some`). -/
def chunkTextD (text : String) (chunkSize overlap : Int) : List String :=
  (chunkText text chunkSize overlap).getD []

example : chunkText "a b c d e f g h i j" 4 1 =
    some ["a b c d", "d e f g", "g h i j", "j"] := by decide

/-! ### Cosine similarity (utils/textUtils.js) -/

/-- Value of a JS floating-point expression, with the non-finite results
needed to model division by zero exactly.  A finite cosine similarity is
kept symbolically as the triple `(dot, sA, sB)` standing for the real
number `dot / (Real.sqrt sA * Real.sqrt sB)` (irrational in general), so
that the definition stays computable. -/
inductive JsCos where
  | nan : JsCos
  | posInf : JsCos
  | negInf : JsCos
  | fin (dot sA sB : ℚ) : JsCos
deriving DecidableEq

/-- `a.reduce((sum, val, i) => sum + val * b[i], 0)` for equal-length
vectors (the only use in the source; C2 quantifies over equal lengths). -/
def dotProduct (a b : List ℚ) : ℚ :=
  (List.zipWith (fun x y => x * y) a b).foldl (fun sum v => sum + v) 0

/-- `a.reduce((sum, val) => sum + val * val, 0)`, the square of
`Math.sqrt`'s argument in `cosineSimilarity`. -/
def sumSq (a : List ℚ) : ℚ :=
  a.foldl (fun sum v => sum + v * v) 0

/-- `cosineSimilarity(a, b)` from utils/textUtils.js: it returns
`dotProduct / (magnitudeA * magnitudeB)` with no guard on the
denominator.  `Math.sqrt sA * Math.sqrt sB` is zero exactly when
`sA * sB = 0` (both factors are nonnegative), and in that case JS
division yields `NaN` for a zero numerator and a signed infinity
otherwise; in the nonzero case the finite quotient is represented
symbolically. -/
def cosineSimilarity (a b : List ℚ) : JsCos :=
  let dot := dotProduct a b
  let sA := sumSq a
  let sB := sumSq b
  if sA * sB = 0 then
    if dot = 0 then JsCos.nan
    else if 0 < dot then JsCos.posInf
    else JsCos.negInf
  else JsCos.fin dot sA sB

/-! ### Retrieval (services/ragService.js, retrieveRelevantChunks) -/

/-- A stored chunk record as produced by the indexing paths
(`processWebsitePages`, the no-embedding website path, and document
upload).  `embedding` is `none` where the source stores `null`. -/
structure ChunkRec where
  chunk : String
  embedding : Option (List ℚ)
  source : String
  url : Option String
  title : String
  chunkIndex : Nat
  pageIndex : Nat
  type : String
deriving DecidableEq

/-- One element of the `similarities` array built by
`retrieveRelevantChunks` and by the RAG dispatchers. -/
structure ScoredChunk where
  index : Nat
  similarity : ℚ
  chunk : String
  source : String
  url : Option String
  type : String
deriving DecidableEq

/-- The comparator `(a, b) => b.similarity - a.similarity` of
`Array.prototype.sort`: `a` may stay before `b` exactly when the
comparator is `≤ 0`, i.e. when `b.similarity ≤ a.similarity`.  JS sort is
stable and, for a consistent comparator, produces an order sorted by it;
it is modelled by `List.mergeSort` with this relation. -/
def simLe (a b : ScoredChunk) : Bool :=
  decide (b.similarity ≤ a.similarity)

/-- `retrieveRelevantChunks(query, topK)` from services/ragService.js.
The query string has already been embedded by `generateEmbedding` (the
function throws before this code when the embedder is unavailable), so
the model receives the query embedding directly.  `simFn` stands for the
real-valued cosine similarity `dot / (‖a‖·‖b‖)` attached to each record;
it is a parameter because that value is irrational in general (its
degenerate NaN case is the subject of C2).  A stored record whose
`embedding` is `null` makes `cosineSimilarity` read `b[i]` of `null`,
which throws a TypeError; that is the `Except.error` case. -/
def retrieveRelevantChunks (simFn : List ℚ → List ℚ → ℚ)
    (queryEmbedding : List ℚ) (docs : List ChunkRec) (topK : Nat) :
    Except String (List ScoredChunk) :=
  if docs.length = 0 then Except.ok []
  else if docs.any (fun d => d.embedding.isNone) then
    Except.error "TypeError: cannot read properties of null"
  else
    let similarities := docs.enum.map (fun p =>
      { index := p.1
        similarity := simFn queryEmbedding (p.2.embedding.getD [])
        chunk := p.2.chunk
        source := p.2.source
        url := p.2.url
        type := if p.2.type = "" then "document" else p.2.type })
    Except.ok ((similarities.mergeSort simLe).take topK)

/-! ### Azure OpenAI request construction (models/azureOpenAI.js) -/

/-- The request body assembled by `generateAzureOpenAIResponse`.
`messages` holds (role, content) pairs; absent JSON fields are `none`. -/
structure AzureRequest where
  messages : List (String × String)
  max_tokens : Option Int
  max_completion_tokens : Option Int
  temperature : Option ℚ
  top_p : Option ℚ
  frequency_penalty : Option ℚ
  presence_penalty : Option ℚ
deriving DecidableEq

/-- `deployment.toLowerCase().includes('o1')`. -/
def isO1Model (deployment : String) : Bool :=
  jsIncludes (jsToLower deployment) "o1"

/-- The `requestBody` built by `generateAzureOpenAIResponse` for the
configured `deployment`, given the already-assembled system and user
messages. -/
def buildAzureRequestBody (deployment systemMessage userMessage : String) :
    AzureRequest :=
  if isO1Model deployment then
    { messages := [("user", userMessage)]
      max_tokens := none
      max_completion_tokens := some 2000
      temperature := none
      top_p := none
      frequency_penalty := none
      presence_penalty := none }
  else
    let maxTokens : Int :=
      if jsIncludes deployment "gpt-4" then 1500
      else if jsIncludes deployment "gpt-3.5" then 1000
      else 1000
    { messages := [("system", systemMessage), ("user", userMessage)]
      max_tokens := some maxTokens
      max_completion_tokens := none
      temperature := some (7 / 10)
      top_p := some (9 / 10)
      frequency_penalty := some 0
      presence_penalty := some 0 }

example : isO1Model "My-O1-Mini" = true := by decide

example : isO1Model "gpt-4o" = false := by decide

/-! ### RAG dispatchers (services/ragService.js) -/

/-- The `availableEmbeddings` filter shared by both dispatchers:
`includeWebsiteContent ? documentEmbeddings : documentEmbeddings.filter(d => d.type !== 'website')`. -/
def availableEmbeddings (docs : List ChunkRec) (includeWebsiteContent : Bool) :
    List ChunkRec :=
  if includeWebsiteContent then docs else docs.filter (fun d => d.type != "website")

/-- The `similarities` array a dispatcher builds over the available
records, scored against the query embedding (see
`retrieveRelevantChunks` for the role of `simFn`). -/
def scoreChunks (simFn : List ℚ → List ℚ → ℚ) (queryEmbedding : List ℚ)
    (docs : List ChunkRec) : List ScoredChunk :=
  docs.enum.map (fun p =>
    { index := p.1
      similarity := simFn queryEmbedding (p.2.embedding.getD [])
      chunk := p.2.chunk
      source := p.2.source
      url := p.2.url
      type := if p.2.type = "" then "document" else p.2.type })

/-- Context and source computation of `generateLocalResponseWithRAG`.
`embedderAvailable = false` makes `generateEmbedding(message)` throw
`'Embedder not available'` (the function calls it unconditionally once
available records exist, with no try/catch), and a stored `null`
embedding makes `cosineSimilarity` throw; both propagate out of the
dispatcher.  On success the result is the `(context, sources)` pair
handed to `generateResponseWithContext`. -/
def localRagContext (embedderAvailable : Bool) (embed : String → List ℚ)
    (simFn : List ℚ → List ℚ → ℚ) (message : String) (docs : List ChunkRec)
    (useRAG includeWebsiteContent : Bool) :
    Except String (String × List String) :=
  if useRAG && decide (0 < docs.length) then
    let available := availableEmbeddings docs includeWebsiteContent
    if 0 < available.length then
      if embedderAvailable = false then Except.error "Embedder not available"
      else if available.any (fun d => d.embedding.isNone) then
        Except.error "TypeError: cannot read properties of null"
      else
        let similarities := scoreChunks simFn (embed message) available
        let relevantChunks := (similarities.mergeSort simLe).take 3
        if 0 < relevantChunks.length then
          Except.ok (jsJoin "\n\n" (relevantChunks.map (fun c => c.chunk)),
            jsDedup (relevantChunks.map (fun c => c.source)))
        else Except.ok ("", [])
    else Except.ok ("", [])
  else Except.ok ("", [])

/-- The keyword-containment chunk selection of
`generateAzureOpenAIResponseWithRAG` in Azure App Service mode:
`availableEmbeddings.filter(doc => doc.chunk.toLowerCase().includes(messageLower)).slice(0, 3)`. -/
def keywordMatches (message : String) (available : List ChunkRec) :
    List ChunkRec :=
  (available.filter (fun d => jsIncludes (jsToLower d.chunk) (jsToLower message))).take 3

/-- Context and source computation of `generateAzureOpenAIResponseWithRAG`
(the part between the client lookup and the final call to
`generateAzureOpenAIResponse`).  In Azure App Service mode
(`isAzure = true`, where the embedder is never initialized) it uses
keyword containment with a first-3 fallback; otherwise it retrieves by
embedding only when the embedder is available, and any retrieval error
(including the TypeError on a stored `null` embedding) is caught,
continuing with an empty context.  This path never throws from RAG. -/
def azureRagContext (isAzure : Bool) (embedderAvailable : Bool)
    (embed : String → List ℚ) (simFn : List ℚ → List ℚ → ℚ) (ragTopK : Nat)
    (message : String) (docs : List ChunkRec)
    (useRAG includeWebsiteContent : Bool) : String × List String :=
  if useRAG && decide (0 < docs.length) then
    let available := availableEmbeddings docs includeWebsiteContent
    if isAzure then
      if 0 < available.length then
        let matchingChunks := keywordMatches message available
        if matchingChunks.length = 0 then
          let fallbackChunks := available.take 3
          (jsJoin "\n\n" (fallbackChunks.map (fun c => c.chunk)),
            jsDedup (fallbackChunks.map (fun c => c.source)))
        else
          (jsJoin "\n\n" (matchingChunks.map (fun c => c.chunk)),
            jsDedup (matchingChunks.map (fun c => c.source)))
      else ("", [])
    else
      if decide (0 < available.length) && embedderAvailable then
        if available.any (fun d => d.embedding.isNone) then ("", [])
        else
          let similarities := scoreChunks simFn (embed message) available
          let relevantChunks := (similarities.mergeSort simLe).take ragTopK
          if 0 < relevantChunks.length then
            (jsJoin "\n\n" (relevantChunks.map (fun c => c.chunk)),
              jsDedup (relevantChunks.map (fun c => c.source)))
          else ("", [])
      else ("", [])
  else ("", [])

/-! ### Website crawler (services/crawling.js, crawlWebsite) -/

/-- What the network returns for one URL: a thrown fetch error, or a
response with its content type, the length of the extracted page content
after trimming, and the deduplicated in-scope links
`extractLinksFromPage` derives from the document.  Extraction itself is
pure and total, so it is folded into the outcome. -/
inductive FetchOutcome where
  | failure (msg : String)
  | success (isHtml : Bool) (contentLength : Nat) (links : List String)

/-- Observable crawl actions: a fetch of a URL (with whether it
succeeded) and one inter-request delay (`setTimeout(crawlDelay)`). -/
inductive CrawlEvent where
  | fetch (url : String) (ok : Bool)
  | delay
deriving DecidableEq

/-- The URL of a fetch event, if any. -/
def fetchUrl : CrawlEvent → Option String
  | CrawlEvent.fetch u _ => some u
  | CrawlEvent.delay => none

/-- The crawl's mutable locals: `visitedUrls`, `urlsToVisit` (FIFO),
`crawledPages` (kept as the stored pages' URLs), the per-URL error list,
plus the trace of fetch/delay events in execution order. -/
structure CrawlSt where
  visited : List String
  frontier : List String
  pages : List String
  errors : List (String × String)
  events : List CrawlEvent
deriving DecidableEq

/-- Inputs of one crawl: the network (`world`), the robots.txt verdict
per URL (`fun _ => true` when robots.txt is absent, unreadable or not
requested), and the `maxPages`/`crawlDelay` options. -/
structure CrawlConfig where
  world : String → FetchOutcome
  robotsAllowed : String → Bool
  maxPages : Nat
  crawlDelay : Int

/-- The `newUrls.forEach` frontier update: each extracted link is pushed
unless it is already visited or already queued (the membership test sees
links pushed earlier in the same loop). -/
def enqueueLinks (visited : List String) (frontier : List String)
    (links : List String) : List String :=
  links.foldl (fun fr u => if u ∈ visited ∨ u ∈ fr then fr else fr ++ [u]) frontier

/-- One iteration of the `while` loop of `crawlWebsite`, applied to the
state after the dequeue (`currentUrl = urlsToVisit.shift()`): skip if
already visited; mark visited; skip if robots.txt disallows; fetch.  On
a successful fetch of an HTML page, store it when the extracted content
is over 100 characters and extend the frontier when still under the
page budget; every successful fetch (HTML or not) is followed by the
delay when `crawlDelay > 0`.  A fetch failure is recorded in the error
list and skips the delay, which sits later in the same `try` block. -/
def crawlBody (cfg : CrawlConfig) (currentUrl : String) (st : CrawlSt) : CrawlSt :=
  if currentUrl ∈ st.visited then st
  else
    let st1 : CrawlSt := { st with visited := st.visited ++ [currentUrl] }
    if cfg.robotsAllowed currentUrl = false then st1
    else
      match cfg.world currentUrl with
      | FetchOutcome.failure msg =>
        { st1 with
          errors := st1.errors ++ [(currentUrl, msg)]
          events := st1.events ++ [CrawlEvent.fetch currentUrl false] }
      | FetchOutcome.success isHtml contentLength links =>
        let stF : CrawlSt :=
          { st1 with events := st1.events ++ [CrawlEvent.fetch currentUrl true] }
        let stH : CrawlSt :=
          if isHtml then
            let stP : CrawlSt :=
              if 100 < contentLength then
                { stF with pages := stF.pages ++ [currentUrl] }
              else stF
            if stP.pages.length < cfg.maxPages then
              { stP with frontier := enqueueLinks stP.visited stP.frontier links }
            else stP
          else stF
        if 0 < cfg.crawlDelay then
          { stH with events := stH.events ++ [CrawlEvent.delay] }
        else stH

/-- The `while (urlsToVisit.length > 0 && crawledPages.length < maxPages)`
loop of `crawlWebsite`: dequeue the head of the frontier and run one
iteration until the frontier empties or the page budget is reached.
`fuel` bounds the iterations of the model — the JS loop can run
unboundedly on a world that keeps producing fresh links. -/
def crawlLoop (cfg : CrawlConfig) : Nat → CrawlSt → CrawlSt
  | 0, st => st
  | fuel + 1, st =>
    if st.frontier = [] ∨ cfg.maxPages ≤ st.pages.length then st
    else
      match st.frontier with
      | [] => st
      | currentUrl :: rest =>
        crawlLoop cfg fuel (crawlBody cfg currentUrl { st with frontier := rest })

/-- `crawlWebsite(baseUrl, options)`: the loop started on the seed URL
with empty visited set and results. -/
def crawlWebsite (cfg : CrawlConfig) (baseUrl : String) (fuel : Nat) : CrawlSt :=
  crawlLoop cfg fuel
    { visited := [], frontier := [baseUrl], pages := [], errors := [], events := [] }

/-- Checks that in a trace every fetch — successful or failed — is
immediately followed by a delay event (the reading of C4 as stated). -/
def delayAfterEveryFetch : List CrawlEvent → Bool
  | [] => true
  | CrawlEvent.delay :: rest => delayAfterEveryFetch rest
  | CrawlEvent.fetch _ _ :: CrawlEvent.delay :: rest => delayAfterEveryFetch rest
  | CrawlEvent.fetch _ _ :: _ => false

/-- Checks that in a trace every successful fetch is immediately
followed by a delay event (failed fetches are exempt). -/
def delayAfterOkFetch : List CrawlEvent → Bool
  | [] => true
  | CrawlEvent.delay :: rest => delayAfterOkFetch rest
  | CrawlEvent.fetch _ true :: CrawlEvent.delay :: rest => delayAfterOkFetch rest
  | CrawlEvent.fetch _ true :: _ => false
  | CrawlEvent.fetch _ false :: rest => delayAfterOkFetch rest

/-! ### Website indexing (services/crawling.js, crawlAndIndexWebsite) -/

/-- A page produced by `extractPageContent` (the fields the indexing
step reads). -/
structure Page where
  url : String
  title : String
  description : String
  content : String
deriving DecidableEq, BEq

/-- The `structuredContent` assembled per page before chunking: title,
then the description when truthy (non-empty), then the content. -/
def structuredContent (p : Page) : String :=
  p.title ++ "\n\n" ++
    (if p.description = "" then "" else p.description ++ "\n\n") ++
    p.content

/-- The `source` label `` `${page.title} (${page.url})` ``. -/
def sourceLabel (p : Page) : String :=
  p.title ++ " (" ++ p.url ++ ")"

/-- The website chunk records built by the no-embedding branch of
`crawlAndIndexWebsite` (Azure App Service or embedder unavailable):
chunks of each page's structured content with `embedding: null` and
`type: 'website'`. -/
def websiteChunksNoEmbed (pages : List Page) : List ChunkRec :=
  pages.foldl (fun acc page =>
    acc ++ ((chunkTextD (structuredContent page) 500 50).enum.map (fun ic =>
      { chunk := ic.2
        embedding := none
        source := sourceLabel page
        url := some page.url
        title := page.title
        chunkIndex := ic.1
        pageIndex := pages.indexOf page
        type := "website" }))) []

/-- `processWebsitePages(pages)` from services/ragService.js, reached
with the embedder available: like the no-embedding branch but each chunk
is embedded; a chunk whose embedding generation throws (`embedOf` gives
`none`) is dropped by the per-chunk catch and indexing continues. -/
def processWebsitePages (embedOf : String → Option (List ℚ))
    (pages : List Page) : List ChunkRec :=
  pages.foldl (fun acc page =>
    acc ++ ((chunkTextD (structuredContent page) 500 50).enum.filterMap (fun ic =>
      match embedOf ic.2 with
      | none => none
      | some e => some
        { chunk := ic.2
          embedding := some e
          source := sourceLabel page
          url := some page.url
          title := page.title
          chunkIndex := ic.1
          pageIndex := pages.indexOf page
          type := "website" }))) []

/-- The effect of `crawlAndIndexWebsite` on the shared
`documentEmbeddings` store, given the pages the crawl returned.  With no
pages the function returns early and the store is untouched.  Otherwise
both branches filter out every record with `type === 'website'` and then
append the freshly built website chunks (without embeddings in Azure App
Service mode or when the embedder is unavailable, with embeddings via
`processWebsitePages` otherwise). -/
def crawlAndIndexStore (isAzure : Bool) (embedderAvailable : Bool)
    (embedOf : String → Option (List ℚ)) (store : List ChunkRec)
    (pages : List Page) : List ChunkRec :=
  if pages.length = 0 then store
  else if isAzure || !embedderAvailable then
    store.filter (fun d => d.type != "website") ++ websiteChunksNoEmbed pages
  else
    store.filter (fun d => d.type != "website") ++ processWebsitePages embedOf pages

/-! ### Crawl mutual exclusion (routes crawl endpoint + crawlWebsite) -/

/-- The process-wide crawl gate: `websiteCrawlData.crawlInProgress`
together with a count of crawl tasks currently executing (not a source
variable; it makes "two crawls at once" statable). -/
structure CrawlGate where
  crawlInProgress : Bool
  running : Nat
deriving DecidableEq

/-- Outcome of `POST /crawl` as far as crawl admission is concerned. -/
inductive CrawlRequestResult where
  | accepted
  | rejectedInProgress
deriving DecidableEq

/-- The admission logic of the crawl endpoint: when
`websiteCrawlData.crawlInProgress` is set the request is answered 409
(`'Crawl already in progress'`) and nothing else happens; otherwise
`crawlAndIndexWebsite` is launched and `crawlWebsite` sets
`crawlInProgress = true` before its first `await`.  Node's event loop
runs the handler's check and that assignment in one turn with no
intervening suspension point, so the pair is modelled as a single atomic
transition. -/
def startCrawl (st : CrawlGate) : CrawlGate × CrawlRequestResult :=
  if st.crawlInProgress then (st, CrawlRequestResult.rejectedInProgress)
  else ({ crawlInProgress := true, running := st.running + 1 },
    CrawlRequestResult.accepted)

/-- Completion of a crawl task: `crawlWebsite` clears `crawlInProgress`
at the end of its loop, and the catch block of `crawlAndIndexWebsite`
clears it on error. -/
def finishCrawl (st : CrawlGate) : CrawlGate :=
  { crawlInProgress := false, running := st.running - 1 }

/-- Events the gate reacts to: an incoming crawl request, or a running
crawl finishing (normally or with an error). -/
inductive GateEvent where
  | request
  | finish

/-- One gate transition. -/
def gateStep (st : CrawlGate) : GateEvent → CrawlGate
  | GateEvent.request => (startCrawl st).1
  | GateEvent.finish => finishCrawl st

/-- The gate state after a sequence of events, starting from process
start (`crawlInProgress = false`, nothing running). -/
def runGate (events : List GateEvent) : CrawlGate :=
  events.foldl gateStep { crawlInProgress := false, running := 0 }

/-! ### C1: the 10-word chunking scenario -/

/-- C1: the claim states that chunking `"a b c d e f g h i j"` with
`chunkSize = 4, overlap = 1` yields exactly the three chunks
`["a b c d", "d e f g", "g h i j"]`.  It does not: the loop strides by
3 through indices 0, 3, 6 and 9, and the window starting at word 9
produces a fourth chunk `"j"`. -/
theorem chunkText_scenario_not_three_chunks :
    chunkText "a b c d e f g h i j" 4 1 ≠
      some ["a b c d", "d e f g", "g h i j"] := by
  decide

/-- C1 (amended): chunking the 10-word text `"a b c d e f g h i j"`
with `chunkSize = 4, overlap = 1` yields exactly the four chunks
`["a b c d", "d e f g", "g h i j", "j"]` — the three claimed windows
plus the trailing one-word window starting at index 9. -/
theorem chunkText_scenario_four_chunks :
    chunkText "a b c d e f g h i j" 4 1 =
      some ["a b c d", "d e f g", "g h i j", "j"] := by
  decide

/-! ### C2: zero-magnitude vectors in cosineSimilarity -/

/-- C2: the claim states that for equal-length vectors a zero magnitude
makes `cosineSimilarity` return 0 thanks to a guard on the division.
The source has no such guard: on the equal-length zero-magnitude pair
`[0], [0]` it computes `0 / (0 * 0)`, which is `NaN` in JS, not 0.  The
spec's requirement is the evident intent and the code omits the guard,
so this records the code bug by evaluating the model at the failing
input. -/
theorem cosineSimilarity_zero_vector_is_nan :
    cosineSimilarity [(0 : ℚ)] [(0 : ℚ)] = JsCos.nan := by
  norm_num [cosineSimilarity, dotProduct, sumSq]

/-! ### C8: request shape per deployment identifier -/

/-- C8: for every deployment identifier containing the marker `o1`
(case-insensitively) the outbound request has only a user-role message,
carries `max_completion_tokens`, and no `max_tokens` and no sampling
parameters; for every other identifier it has a system and a user
message, carries `max_tokens`, and all four sampling parameters. -/
theorem buildAzureRequestBody_shape (d s u : String) :
    ((buildAzureRequestBody d s u).messages.map Prod.fst =
      if isO1Model d then ["user"] else ["system", "user"]) ∧
    ((buildAzureRequestBody d s u).max_completion_tokens.isSome = isO1Model d) ∧
    ((buildAzureRequestBody d s u).max_tokens.isSome = !isO1Model d) ∧
    ((buildAzureRequestBody d s u).temperature.isSome = !isO1Model d) ∧
    ((buildAzureRequestBody d s u).top_p.isSome = !isO1Model d) ∧
    ((buildAzureRequestBody d s u).frequency_penalty.isSome = !isO1Model d) ∧
    ((buildAzureRequestBody d s u).presence_penalty.isSome = !isO1Model d) := by
  cases h : isO1Model d <;> simp [buildAzureRequestBody, h]

/-! ### C9: crawl admission is mutually exclusive -/

/-- Gate invariant: at most one crawl runs, and none runs while the
flag is down. -/
abbrev GateInv (st : CrawlGate) : Prop :=
  st.running ≤ 1 ∧ (st.crawlInProgress = false → st.running = 0)

theorem gateStep_preserves (st : CrawlGate) (h : GateInv st) (e : GateEvent) :
    GateInv (gateStep st e) := by
  obtain ⟨h1, h2⟩ := h
  cases e with
  | request =>
    cases hc : st.crawlInProgress with
    | true =>
      have hst : gateStep st GateEvent.request = st := by
        simp [gateStep, startCrawl, hc]
      rw [hst]; exact ⟨h1, h2⟩
    | false =>
      have h0 : st.running = 0 := h2 hc
      have hst : gateStep st GateEvent.request =
          { crawlInProgress := true, running := st.running + 1 } := by
        simp [gateStep, startCrawl, hc]
      rw [hst]
      refine ⟨?_, by simp⟩
      show st.running + 1 ≤ 1
      omega
  | finish =>
    refine ⟨?_, fun _ => ?_⟩
    · simp only [gateStep, finishCrawl]; omega
    · simp only [gateStep, finishCrawl]; omega

theorem foldl_gateStep_inv (events : List GateEvent) :
    ∀ st : CrawlGate, GateInv st → GateInv (events.foldl gateStep st) := by
  induction events with
  | nil => intro st h; simpa using h
  | cons e rest ih =>
    intro st h
    simpa [List.foldl_cons] using ih (gateStep st e) (gateStep_preserves st h e)

/-- C9: a crawl request arriving while `crawlInProgress` is true is
answered `rejected (already in progress)` and changes nothing — no
second crawl starts; and in every state reachable from process start by
any sequence of requests and completions at most one crawl is running. -/
theorem crawlGate_mutual_exclusion :
    (∀ events : List GateEvent, (runGate events).running ≤ 1) ∧
    (∀ st : CrawlGate, st.crawlInProgress = true →
      startCrawl st = (st, CrawlRequestResult.rejectedInProgress)) := by
  constructor
  · intro events
    exact (foldl_gateStep_inv events _ ⟨by simp, by simp⟩).1
  · intro st h
    simp [startCrawl, h]

/-- Witness for C9 at concrete inputs: two back-to-back requests leave
at most one crawl running, and a request against a busy gate is
rejected without a state change. -/
theorem crawlGate_mutual_exclusion_witness :
    (runGate [GateEvent.request, GateEvent.request]).running ≤ 1 ∧
    startCrawl { crawlInProgress := true, running := 1 } =
      ({ crawlInProgress := true, running := 1 },
        CrawlRequestResult.rejectedInProgress) :=
  ⟨crawlGate_mutual_exclusion.1 [GateEvent.request, GateEvent.request],
    crawlGate_mutual_exclusion.2 { crawlInProgress := true, running := 1 } rfl⟩

/-! ### C10: termination of chunkText -/

theorem splitWsStep_fst_ne_nil (c : Char) (st : List String × Bool)
    (h : st.1 ≠ []) : (splitWsStep c st).1 ≠ [] := by
  obtain ⟨tokens, flag⟩ := st
  simp only [splitWsStep]
  split
  · split
    · exact h
    · simp
  · cases tokens with
    | nil => simp
    | cons hd tl => simp

/-- `text.split(/\s+/)` always has at least one element (JS `split`
returns `[""]` even for the empty string). -/
theorem jsSplitWs_ne_nil (s : String) : jsSplitWs s ≠ [] := by
  suffices h : ∀ cs : List Char, (cs.foldr splitWsStep ([""], false)).1 ≠ [] from h s.toList
  intro cs
  induction cs with
  | nil => simp
  | cons c rest ih => exact splitWsStep_fst_ne_nil c _ ih

/-- With a positive stride the loop index gains at least one per
iteration, so fuel beyond the remaining distance makes the loop
return. -/
theorem chunkLoop_isSome (words : List String) (chunkSize overlap : Int)
    (hstride : 1 ≤ chunkSize - overlap) :
    ∀ (fuel : Nat) (i : Int) (acc : List String),
      ((words.length : Int) - i).toNat < fuel →
      (chunkLoop words chunkSize overlap fuel i acc).isSome = true := by
  intro fuel
  induction fuel with
  | zero => intro i acc h; omega
  | succ fuel ih =>
    intro i acc h
    simp only [chunkLoop]
    split
    · rename_i hi
      apply ih
      omega
    · simp

/-- With a nonpositive stride the loop index never increases, so once it
is below the word count the loop runs forever (the model exhausts any
fuel). -/
theorem chunkLoop_eq_none (words : List String) (chunkSize overlap : Int)
    (hstride : chunkSize - overlap ≤ 0) :
    ∀ (fuel : Nat) (i : Int) (acc : List String),
      i < (words.length : Int) →
      chunkLoop words chunkSize overlap fuel i acc = none := by
  intro fuel
  induction fuel with
  | zero => intro i acc _; rfl
  | succ fuel ih =>
    intro i acc hi
    simp only [chunkLoop]
    rw [if_pos hi]
    apply ih
    omega

/-- C10: `chunkText` terminates exactly when the stride
`chunkSize - overlap` is positive, i.e. when `overlap < chunkSize`:
under that precondition the loop finishes within `words.length + 1`
iterations for every text, and with `overlap ≥ chunkSize` the loop index
never advances past the (always nonempty) word list, so no amount of
fuel reaches the exit — the call diverges for every text. -/
theorem chunkText_terminates_iff_overlap_lt_size (text : String)
    (chunkSize overlap : Int) :
    ((∃ fuel, (chunkLoop (jsSplitWs text) chunkSize overlap fuel 0 []).isSome = true) ↔
      overlap < chunkSize) ∧
    ((chunkText text chunkSize overlap).isSome = true ↔ overlap < chunkSize) := by
  have hne := jsSplitWs_ne_nil text
  have hlen : 0 < (jsSplitWs text).length := List.length_pos.mpr hne
  have hlenInt : (0 : Int) < ((jsSplitWs text).length : Int) := by exact_mod_cast hlen
  constructor
  · constructor
    · rintro ⟨fuel, hf⟩
      by_contra hlt
      push_neg at hlt
      rw [chunkLoop_eq_none _ _ _ (by omega) fuel 0 [] hlenInt] at hf
      simp at hf
    · intro hlt
      exact ⟨(jsSplitWs text).length + 1,
        chunkLoop_isSome _ _ _ (by omega) _ 0 [] (by omega)⟩
  · constructor
    · intro hf
      by_contra hlt
      push_neg at hlt
      have hnone : chunkText text chunkSize overlap = none :=
        chunkLoop_eq_none _ _ _ (by omega) _ 0 [] hlenInt
      rw [hnone] at hf
      simp at hf
    · intro hlt
      show (chunkLoop (jsSplitWs text) chunkSize overlap
        ((jsSplitWs text).length + 1) 0 []).isSome = true
      exact chunkLoop_isSome _ _ _ (by omega) _ 0 [] (by omega)

/-! ### C7: retrieval returns at most topK results, sorted -/

theorem simLe_trans : ∀ a b c : ScoredChunk, simLe a b → simLe b c → simLe a c := by
  intro a b c hab hbc
  have h1 : b.similarity ≤ a.similarity := of_decide_eq_true hab
  have h2 : c.similarity ≤ b.similarity := of_decide_eq_true hbc
  exact decide_eq_true (le_trans h2 h1)

theorem simLe_total : ∀ a b : ScoredChunk, simLe a b || simLe b a := by
  intro a b
  rcases le_total b.similarity a.similarity with h | h
  · simp [simLe, h]
  · simp [simLe, h]

/-- C7: whenever `retrieveRelevantChunks(query, topK)` returns a result
list, that list has at most `topK` elements and is ordered by
non-increasing similarity. -/
theorem retrieveRelevantChunks_topK_sorted
    (simFn : List ℚ → List ℚ → ℚ) (queryEmbedding : List ℚ)
    (docs : List ChunkRec) (topK : Nat) (l : List ScoredChunk)
    (h : retrieveRelevantChunks simFn queryEmbedding docs topK = Except.ok l) :
    l.length ≤ topK ∧ l.Pairwise (fun a b => b.similarity ≤ a.similarity) := by
  unfold retrieveRelevantChunks at h
  split at h
  · simp only [Except.ok.injEq] at h
    subst h
    simp
  · split at h
    · exact absurd h (by simp)
    · simp only [Except.ok.injEq] at h
      subst h
      constructor
      · rw [List.length_take]
        exact Nat.min_le_left _ _
      · refine (List.Pairwise.sublist (List.take_sublist _ _) ?_).imp
          (fun hab => of_decide_eq_true hab)
        exact List.sorted_mergeSort simLe_trans simLe_total _

/-- Witness for C7 at concrete inputs: the empty store with `topK = 0`
retrieves the empty, trivially sorted list. -/
theorem retrieveRelevantChunks_topK_sorted_witness :
    retrieveRelevantChunks (fun _ _ => 0) [] [] 0 = Except.ok [] ∧
    ([] : List ScoredChunk).length ≤ 0 ∧
    ([] : List ScoredChunk).Pairwise (fun a b => b.similarity ≤ a.similarity) :=
  ⟨rfl, retrieveRelevantChunks_topK_sorted (fun _ _ => 0) [] [] 0 [] rfl⟩

/-! ### C3: RAG with the embedder unavailable -/

theorem string_length_zero {s : String} (h : s.length = 0) : s = "" := by
  cases s with
  | mk d =>
    cases d with
    | nil => rfl
    | cons c cs => simp [String.length] at h

theorem jsJoin_ne_empty (sep : String) (h : String) (t : List String)
    (hh : h ≠ "") : jsJoin sep (h :: t) ≠ "" := by
  cases t with
  | nil => simpa [jsJoin] using hh
  | cons y rest =>
    intro hc
    have hlen := congrArg String.length hc
    rw [show jsJoin sep (h :: y :: rest) = h ++ sep ++ jsJoin sep (y :: rest) from rfl]
      at hlen
    simp only [String.length_append] at hlen
    have h0 : ("" : String).length = 0 := rfl
    rw [h0] at hlen
    exact hh (string_length_zero (by omega))

theorem keywordMatches_subset (message : String) (av : List ChunkRec) :
    ∀ c ∈ keywordMatches message av, c ∈ av := by
  intro c hc
  exact List.mem_of_mem_filter (List.mem_of_mem_take hc)

/-- A concrete stored chunk (no embedding, document kind). -/
def docAlpha : ChunkRec :=
  { chunk := "alpha beta"
    embedding := none
    source := "notes.txt"
    url := none
    title := ""
    chunkIndex := 0
    pageIndex := 0
    type := "document" }

/-- C3 (counterexample): the claim says that with RAG enabled, the
embedder unavailable and a chunk stored, the dispatcher does not fail
and falls back to keyword containment.  The local dispatcher
(`generateLocalResponseWithRAG`) has no such fallback: it calls
`generateEmbedding(message)` unconditionally once available records
exist, which throws `'Embedder not available'` — the request fails. -/
theorem localRagContext_throws_when_embedder_unavailable :
    localRagContext false (fun _ => []) (fun _ _ => 0) "hello" [docAlpha]
      true true = Except.error "Embedder not available" := rfl

/-- C3 (amended): only the Azure App Service dispatcher
(`generateAzureOpenAIResponseWithRAG` with `isAzureAppService`, the mode
in which the embedder is never initialized) degrades to keyword
containment: with RAG enabled and at least one chunk surviving the
`includeWebsiteContent` filter (all stored chunk texts being non-empty),
it supplies a context built from the keyword-matching chunks (at most
3), falling back to the first up-to-3 available chunks when none match,
and that context is never empty. -/
theorem azureRagContext_keyword_fallback
    (embAv : Bool) (embed : String → List ℚ) (simFn : List ℚ → List ℚ → ℚ)
    (k : Nat) (message : String) (docs : List ChunkRec) (iwc : Bool)
    (hav : availableEmbeddings docs iwc ≠ [])
    (hne : ∀ c ∈ docs, c.chunk ≠ "") :
    ∃ used : List ChunkRec,
      used ≠ [] ∧
      used.length ≤ 3 ∧
      ((keywordMatches message (availableEmbeddings docs iwc) ≠ [] ∧
          used = keywordMatches message (availableEmbeddings docs iwc)) ∨
        (keywordMatches message (availableEmbeddings docs iwc) = [] ∧
          used = (availableEmbeddings docs iwc).take 3)) ∧
      azureRagContext true embAv embed simFn k message docs true iwc =
        (jsJoin "\n\n" (used.map (fun c => c.chunk)),
          jsDedup (used.map (fun c => c.source))) ∧
      (azureRagContext true embAv embed simFn k message docs true iwc).1 ≠ "" := by
  have hdocs : docs ≠ [] := by
    intro h
    apply hav
    subst h
    cases iwc <;> simp [availableEmbeddings]
  have hdlen : 0 < docs.length := List.length_pos.mpr hdocs
  have havlen : 0 < (availableEmbeddings docs iwc).length := List.length_pos.mpr hav
  have hsub : ∀ c ∈ availableEmbeddings docs iwc, c ∈ docs := by
    intro c hc
    cases iwc with
    | true => simpa [availableEmbeddings] using hc
    | false =>
      have hc' : c ∈ docs.filter (fun d => d.type != "website") := hc
      exact List.mem_of_mem_filter hc'
  by_cases hm : keywordMatches message (availableEmbeddings docs iwc) = []
  · have hres : azureRagContext true embAv embed simFn k message docs true iwc =
        (jsJoin "\n\n" (((availableEmbeddings docs iwc).take 3).map (fun c => c.chunk)),
          jsDedup (((availableEmbeddings docs iwc).take 3).map (fun c => c.source))) := by
      simp [azureRagContext, hdlen, havlen, hm]
    have htake : (availableEmbeddings docs iwc).take 3 ≠ [] := by
      simp only [Ne, List.take_eq_nil_iff]
      push_neg
      exact ⟨by omega, hav⟩
    obtain ⟨h1, t1, ht1⟩ := List.exists_cons_of_ne_nil htake
    have hh1 : h1.chunk ≠ "" := by
      apply hne
      apply hsub
      have hmem : h1 ∈ (availableEmbeddings docs iwc).take 3 := by
        rw [ht1]
        exact List.mem_cons_self _ _
      exact List.mem_of_mem_take hmem
    refine ⟨(availableEmbeddings docs iwc).take 3, htake, ?_, Or.inr ⟨hm, rfl⟩, hres, ?_⟩
    · rw [List.length_take]
      exact Nat.min_le_left _ _
    · rw [hres]
      show jsJoin "\n\n" (((availableEmbeddings docs iwc).take 3).map (fun c => c.chunk)) ≠ ""
      rw [ht1]
      exact jsJoin_ne_empty _ _ _ hh1
  · have hmlen : (keywordMatches message (availableEmbeddings docs iwc)).length ≠ 0 := by
      simpa [List.length_eq_zero] using hm
    have hres : azureRagContext true embAv embed simFn k message docs true iwc =
        (jsJoin "\n\n" ((keywordMatches message (availableEmbeddings docs iwc)).map
            (fun c => c.chunk)),
          jsDedup ((keywordMatches message (availableEmbeddings docs iwc)).map
            (fun c => c.source))) := by
      simp [azureRagContext, hdlen, havlen, hmlen]
    obtain ⟨h1, t1, ht1⟩ := List.exists_cons_of_ne_nil hm
    have hh1 : h1.chunk ≠ "" := by
      apply hne
      apply hsub
      apply keywordMatches_subset message
      rw [ht1]
      exact List.mem_cons_self _ _
    refine ⟨keywordMatches message (availableEmbeddings docs iwc), hm, ?_,
      Or.inl ⟨hm, rfl⟩, hres, ?_⟩
    · show (keywordMatches message (availableEmbeddings docs iwc)).length ≤ 3
      unfold keywordMatches
      rw [List.length_take]
      exact Nat.min_le_left _ _
    · rw [hres]
      show jsJoin "\n\n" ((keywordMatches message (availableEmbeddings docs iwc)).map
        (fun c => c.chunk)) ≠ ""
      rw [ht1]
      exact jsJoin_ne_empty _ _ _ hh1

/-- Witness for C3 (amended) at concrete inputs: one stored document
chunk, query matching nothing, website content included. -/
theorem azureRagContext_keyword_fallback_witness :
    (availableEmbeddings [docAlpha] true ≠ [] ∧
      (∀ c ∈ [docAlpha], c.chunk ≠ "")) ∧
    (∃ used : List ChunkRec,
      used ≠ [] ∧
      used.length ≤ 3 ∧
      ((keywordMatches "zzz" (availableEmbeddings [docAlpha] true) ≠ [] ∧
          used = keywordMatches "zzz" (availableEmbeddings [docAlpha] true)) ∨
        (keywordMatches "zzz" (availableEmbeddings [docAlpha] true) = [] ∧
          used = (availableEmbeddings [docAlpha] true).take 3)) ∧
      azureRagContext true false (fun _ => []) (fun _ _ => 0) 3 "zzz" [docAlpha]
          true true =
        (jsJoin "\n\n" (used.map (fun c => c.chunk)),
          jsDedup (used.map (fun c => c.source))) ∧
      (azureRagContext true false (fun _ => []) (fun _ _ => 0) 3 "zzz" [docAlpha]
          true true).1 ≠ "") :=
  ⟨⟨by decide, by decide⟩,
    azureRagContext_keyword_fallback false (fun _ => []) (fun _ _ => 0) 3 "zzz"
      [docAlpha] true (by decide) (by decide)⟩

/-! ### C5: website re-indexing purges website chunks and preserves the rest -/

theorem foldl_append_mem {α β : Type} (g : α → List β) :
    ∀ (l : List α) (acc : List β) (c : β),
      c ∈ l.foldl (fun a p => a ++ g p) acc → c ∈ acc ∨ ∃ p ∈ l, c ∈ g p := by
  intro l
  induction l with
  | nil => intro acc c hc; exact Or.inl hc
  | cons p rest ih =>
    intro acc c hc
    rcases ih (acc ++ g p) c hc with h | ⟨q, hq, hcq⟩
    · rcases List.mem_append.mp h with h' | h'
      · exact Or.inl h'
      · exact Or.inr ⟨p, List.mem_cons_self _ _, h'⟩
    · exact Or.inr ⟨q, List.mem_cons_of_mem _ hq, hcq⟩

theorem websiteChunksNoEmbed_type (pages : List Page) :
    ∀ c ∈ websiteChunksNoEmbed pages, c.type = "website" := by
  intro c hc
  rcases foldl_append_mem _ pages [] c hc with h | ⟨p, _, hcp⟩
  · simp at h
  · simp only [List.mem_map] at hcp
    obtain ⟨ic, _, rfl⟩ := hcp
    rfl

theorem processWebsitePages_type (embedOf : String → Option (List ℚ))
    (pages : List Page) :
    ∀ c ∈ processWebsitePages embedOf pages, c.type = "website" := by
  intro c hc
  rcases foldl_append_mem _ pages [] c hc with h | ⟨p, _, hcp⟩
  · simp at h
  · simp only [List.mem_filterMap] at hcp
    obtain ⟨ic, _, heq⟩ := hcp
    cases he : embedOf ic.2 with
    | none => rw [he] at heq; exact absurd heq (by simp)
    | some e =>
      rw [he] at heq
      simp only [Option.some.injEq] at heq
      rw [← heq]

theorem store_after_reindex (store new : List ChunkRec)
    (hnew : ∀ c ∈ new, c.type = "website") :
    (store.filter (fun d => d.type != "website") ++ new).filter
        (fun d => d.type != "website") =
      store.filter (fun d => d.type != "website") ∧
    (store.filter (fun d => d.type != "website") ++ new).filter
        (fun d => d.type == "website") = new := by
  constructor
  · rw [List.filter_append]
    have h1 : (store.filter (fun d => d.type != "website")).filter
        (fun d => d.type != "website") = store.filter (fun d => d.type != "website") :=
      List.filter_eq_self.mpr (fun a ha => (List.mem_filter.mp ha).2)
    have h2 : new.filter (fun d => d.type != "website") = [] := by
      rw [List.filter_eq_nil_iff]
      intro a ha
      simp [hnew a ha]
    rw [h1, h2, List.append_nil]
  · rw [List.filter_append]
    have h1 : (store.filter (fun d => d.type != "website")).filter
        (fun d => d.type == "website") = [] := by
      rw [List.filter_eq_nil_iff]
      intro a ha
      have := (List.mem_filter.mp ha).2
      simp only [bne_iff_ne, ne_eq] at this
      simp [this]
    have h2 : new.filter (fun d => d.type == "website") = new :=
      List.filter_eq_self.mpr (fun a ha => by simp [hnew a ha])
    rw [h1, h2, List.nil_append]

/-- C5: when a website re-crawl indexes at least one page, the store
afterwards is exactly the previous non-website records followed by the
freshly built website chunks: every previously stored website-kind
record is gone, every new record has kind website, and the
document-kind records are preserved exactly (count, content and order)
— in both the with-embeddings and without-embeddings branches. -/
theorem crawlAndIndexStore_purges_and_preserves
    (isAzure embAv : Bool) (embedOf : String → Option (List ℚ))
    (store : List ChunkRec) (pages : List Page) (hp : pages ≠ []) :
    ∃ newChunks : List ChunkRec,
      crawlAndIndexStore isAzure embAv embedOf store pages =
        store.filter (fun d => d.type != "website") ++ newChunks ∧
      (∀ c ∈ newChunks, c.type = "website") ∧
      (crawlAndIndexStore isAzure embAv embedOf store pages).filter
          (fun d => d.type != "website") =
        store.filter (fun d => d.type != "website") ∧
      (crawlAndIndexStore isAzure embAv embedOf store pages).filter
          (fun d => d.type == "website") = newChunks := by
  have hplen : ¬ pages.length = 0 := by simpa [List.length_eq_zero] using hp
  by_cases hb : (isAzure || !embAv) = true
  · have heq : crawlAndIndexStore isAzure embAv embedOf store pages =
        store.filter (fun d => d.type != "website") ++ websiteChunksNoEmbed pages := by
      simp [crawlAndIndexStore, hplen, hb]
    obtain ⟨hf1, hf2⟩ :=
      store_after_reindex store (websiteChunksNoEmbed pages)
        (websiteChunksNoEmbed_type pages)
    exact ⟨websiteChunksNoEmbed pages, heq, websiteChunksNoEmbed_type pages,
      by rw [heq]; exact hf1, by rw [heq]; exact hf2⟩
  · have heq : crawlAndIndexStore isAzure embAv embedOf store pages =
        store.filter (fun d => d.type != "website") ++
          processWebsitePages embedOf pages := by
      simp only [Bool.not_eq_true] at hb
      simp [crawlAndIndexStore, hplen, hb]
    obtain ⟨hf1, hf2⟩ :=
      store_after_reindex store (processWebsitePages embedOf pages)
        (processWebsitePages_type embedOf pages)
    exact ⟨processWebsitePages embedOf pages, heq,
      processWebsitePages_type embedOf pages,
      by rw [heq]; exact hf1, by rw [heq]; exact hf2⟩

/-- Witness inputs for C5: one crawled page, a store holding one
document chunk and one stale website chunk. -/
def pageHome : Page :=
  { url := "https://site/"
    title := "Home"
    description := ""
    content := "welcome to the site" }

def docNotes : ChunkRec :=
  { chunk := "doc text"
    embedding := none
    source := "notes.txt"
    url := none
    title := ""
    chunkIndex := 0
    pageIndex := 0
    type := "document" }

def webStale : ChunkRec :=
  { chunk := "old web"
    embedding := none
    source := "Home (https://site/)"
    url := some "https://site/"
    title := "Home"
    chunkIndex := 0
    pageIndex := 0
    type := "website" }

/-- Witness for C5 at concrete inputs (Azure branch, no embedder). -/
theorem crawlAndIndexStore_purges_and_preserves_witness :
    ([pageHome] : List Page) ≠ [] ∧
    (∃ newChunks : List ChunkRec,
      crawlAndIndexStore true false (fun _ => none) [docNotes, webStale] [pageHome] =
        [docNotes, webStale].filter (fun d => d.type != "website") ++ newChunks ∧
      (∀ c ∈ newChunks, c.type = "website") ∧
      (crawlAndIndexStore true false (fun _ => none) [docNotes, webStale]
          [pageHome]).filter (fun d => d.type != "website") =
        [docNotes, webStale].filter (fun d => d.type != "website") ∧
      (crawlAndIndexStore true false (fun _ => none) [docNotes, webStale]
          [pageHome]).filter (fun d => d.type == "website") = newChunks) :=
  ⟨by decide,
    crawlAndIndexStore_purges_and_preserves true false (fun _ => none)
      [docNotes, webStale] [pageHome] (by decide)⟩

/-! ### C6: page budget and fetch-at-most-once -/

/-- The URLs fetched in a trace, in order. -/
def fetchedUrls (evs : List CrawlEvent) : List String :=
  evs.filterMap fetchUrl

theorem fetchedUrls_snoc_fetch (evs : List CrawlEvent) (u : String) (b : Bool) :
    fetchedUrls (evs ++ [CrawlEvent.fetch u b]) = fetchedUrls evs ++ [u] := by
  rw [fetchedUrls, List.filterMap_append]
  rfl

theorem fetchedUrls_snoc_delay (evs : List CrawlEvent) :
    fetchedUrls (evs ++ [CrawlEvent.delay]) = fetchedUrls evs := by
  rw [fetchedUrls, List.filterMap_append]
  simp [fetchUrl, fetchedUrls]

/-- One loop iteration preserves the crawl invariant: the fetch trace
stays duplicate-free among URLs, every fetched URL is in the visited
set, and the stored pages stay within the budget (the iteration runs
only when the budget is not yet reached). -/
theorem crawlBody_inv (cfg : CrawlConfig) (u : String) (st : CrawlSt)
    (hnd : (fetchedUrls st.events).Nodup)
    (hvis : ∀ v ∈ fetchedUrls st.events, v ∈ st.visited)
    (hpg : st.pages.length < cfg.maxPages) :
    (fetchedUrls (crawlBody cfg u st).events).Nodup ∧
    (∀ v ∈ fetchedUrls (crawlBody cfg u st).events,
      v ∈ (crawlBody cfg u st).visited) ∧
    (crawlBody cfg u st).pages.length ≤ cfg.maxPages := by
  have hbound := Nat.le_of_lt hpg
  simp only [crawlBody]
  split
  · exact ⟨hnd, hvis, hbound⟩
  next hv =>
    have hufetch : u ∉ fetchedUrls st.events := fun hm => hv (hvis u hm)
    have hnd' : (fetchedUrls st.events ++ [u]).Nodup := by
      simp [List.nodup_append, hnd, hufetch]
    have hvis' : ∀ v ∈ fetchedUrls st.events ++ [u], v ∈ st.visited ++ [u] := by
      intro v hvv
      rcases List.mem_append.mp hvv with h | h
      · exact List.mem_append_left _ (hvis v h)
      · exact List.mem_append_right _ h
    split
    · exact ⟨hnd, fun v hvv => List.mem_append_left _ (hvis v hvv), hbound⟩
    split
    · -- fetch failure
      refine ⟨?_, ?_, hbound⟩
      · rw [fetchedUrls_snoc_fetch]
        exact hnd'
      · intro v hvv
        rw [fetchedUrls_snoc_fetch] at hvv
        exact hvis' v hvv
    · -- fetch success: split the nested ifs (html, content length,
      -- budget, delay); in every leaf the events are the old ones plus
      -- one successful fetch (and possibly a delay), the visited set is
      -- the old one plus `u`, and pages grow by at most one.
      split_ifs <;>
        (refine ⟨?_, ?_, ?_⟩ <;>
          simp only [fetchedUrls_snoc_delay, fetchedUrls_snoc_fetch,
            List.length_append, List.length_singleton] <;>
          first
            | exact hnd'
            | exact hvis'
            | omega)

theorem crawlLoop_inv (cfg : CrawlConfig) :
    ∀ (fuel : Nat) (st : CrawlSt),
      (fetchedUrls st.events).Nodup →
      (∀ v ∈ fetchedUrls st.events, v ∈ st.visited) →
      st.pages.length ≤ cfg.maxPages →
      (fetchedUrls (crawlLoop cfg fuel st).events).Nodup ∧
      (∀ v ∈ fetchedUrls (crawlLoop cfg fuel st).events,
        v ∈ (crawlLoop cfg fuel st).visited) ∧
      (crawlLoop cfg fuel st).pages.length ≤ cfg.maxPages := by
  intro fuel
  induction fuel with
  | zero => intro st h1 h2 h3; exact ⟨h1, h2, h3⟩
  | succ fuel ih =>
    intro st h1 h2 h3
    rw [crawlLoop]
    split
    · exact ⟨h1, h2, h3⟩
    next hcond =>
      push_neg at hcond
      split
      · exact ⟨h1, h2, h3⟩
      next currentUrl rest hfr =>
        have hlt : st.pages.length < cfg.maxPages := hcond.2
        obtain ⟨b1, b2, b3⟩ :=
          crawlBody_inv cfg currentUrl { st with frontier := rest } h1 h2 hlt
        exact ih _ b1 b2 b3

/-- C6: for every crawl — any seed, network behavior, robots verdicts,
options and any amount of fuel — the number of stored pages never
exceeds `maxPages`, and no URL is fetched twice: the fetch trace is
duplicate-free and every fetched URL went into the visited set. -/
theorem crawlWebsite_budget_and_fetch_once (cfg : CrawlConfig)
    (baseUrl : String) (fuel : Nat) :
    (crawlWebsite cfg baseUrl fuel).pages.length ≤ cfg.maxPages ∧
    (fetchedUrls (crawlWebsite cfg baseUrl fuel).events).Nodup ∧
    (∀ v ∈ fetchedUrls (crawlWebsite cfg baseUrl fuel).events,
      v ∈ (crawlWebsite cfg baseUrl fuel).visited) := by
  obtain ⟨h1, h2, h3⟩ := crawlLoop_inv cfg fuel
    { visited := [], frontier := [baseUrl], pages := [], errors := [], events := [] }
    (by simp [fetchedUrls]) (by simp [fetchedUrls]) (by simp)
  exact ⟨h3, h1, h2⟩

/-! ### C4: the inter-request delay and the error path -/

theorem delayAfterOkFetch_append_fail :
    ∀ (l : List CrawlEvent) (u : String),
      delayAfterOkFetch (l ++ [CrawlEvent.fetch u false]) = delayAfterOkFetch l
  | [], _ => rfl
  | CrawlEvent.delay :: rest, u => by
    simpa [delayAfterOkFetch] using delayAfterOkFetch_append_fail rest u
  | CrawlEvent.fetch _ true :: CrawlEvent.delay :: rest, u => by
    simpa [delayAfterOkFetch] using delayAfterOkFetch_append_fail rest u
  | [CrawlEvent.fetch _ true], _ => by simp [delayAfterOkFetch]
  | CrawlEvent.fetch _ true :: CrawlEvent.fetch _ _ :: _, _ => by
    simp [delayAfterOkFetch]
  | CrawlEvent.fetch _ false :: rest, u => by
    simpa [delayAfterOkFetch] using delayAfterOkFetch_append_fail rest u

theorem delayAfterOkFetch_append_ok :
    ∀ (l : List CrawlEvent) (u : String),
      delayAfterOkFetch (l ++ [CrawlEvent.fetch u true, CrawlEvent.delay]) =
        delayAfterOkFetch l
  | [], _ => rfl
  | CrawlEvent.delay :: rest, u => by
    simpa [delayAfterOkFetch] using delayAfterOkFetch_append_ok rest u
  | CrawlEvent.fetch _ true :: CrawlEvent.delay :: rest, u => by
    simpa [delayAfterOkFetch] using delayAfterOkFetch_append_ok rest u
  | [CrawlEvent.fetch _ true], _ => by simp [delayAfterOkFetch]
  | CrawlEvent.fetch _ true :: CrawlEvent.fetch _ _ :: _, _ => by
    simp [delayAfterOkFetch]
  | CrawlEvent.fetch _ false :: rest, u => by
    simpa [delayAfterOkFetch] using delayAfterOkFetch_append_ok rest u

/-- With a positive configured delay, one loop iteration extends the
trace by nothing, by a lone failed fetch, or by a successful fetch
immediately followed by the delay. -/
theorem crawlBody_events_shape (cfg : CrawlConfig) (u : String) (st : CrawlSt)
    (hd : 0 < cfg.crawlDelay) :
    (crawlBody cfg u st).events = st.events ∨
    (crawlBody cfg u st).events = st.events ++ [CrawlEvent.fetch u false] ∨
    (crawlBody cfg u st).events =
      st.events ++ [CrawlEvent.fetch u true, CrawlEvent.delay] := by
  simp only [crawlBody]
  split
  · exact Or.inl rfl
  · split
    · exact Or.inl rfl
    · split
      · exact Or.inr (Or.inl rfl)
      · split_ifs <;> simp_all

theorem crawlLoop_delayOk (cfg : CrawlConfig) (hd : 0 < cfg.crawlDelay) :
    ∀ (fuel : Nat) (st : CrawlSt),
      delayAfterOkFetch st.events = true →
      delayAfterOkFetch (crawlLoop cfg fuel st).events = true := by
  intro fuel
  induction fuel with
  | zero => intro st h; exact h
  | succ fuel ih =>
    intro st h
    rw [crawlLoop]
    split
    · exact h
    · split
      · exact h
      next currentUrl rest hfr =>
        apply ih
        rcases crawlBody_events_shape cfg currentUrl { st with frontier := rest } hd
          with hs | hs | hs <;>
          rw [hs] <;>
          simp only [delayAfterOkFetch_append_fail, delayAfterOkFetch_append_ok] <;>
          exact h

/-- C4 (amended): when the configured crawl delay is positive, every
successful fetch in a crawl's trace is immediately followed by the
inter-request delay — but a fetch that throws skips the delay, because
the `setTimeout` sits inside the `try` block after the response
handling. -/
theorem crawlWebsite_delay_after_successful_fetch (cfg : CrawlConfig)
    (baseUrl : String) (fuel : Nat) (hd : 0 < cfg.crawlDelay) :
    delayAfterOkFetch (crawlWebsite cfg baseUrl fuel).events = true :=
  crawlLoop_delayOk cfg hd fuel
    { visited := [], frontier := [baseUrl], pages := [], errors := [], events := [] }
    rfl

/-- A network on which every fetch succeeds with substantial HTML
content and no links. -/
def cfgOkFetch : CrawlConfig :=
  { world := fun _ => FetchOutcome.success true 200 []
    robotsAllowed := fun _ => true
    maxPages := 20
    crawlDelay := 1000 }

/-- Witness for C4 (amended) at concrete inputs. -/
theorem crawlWebsite_delay_after_successful_fetch_witness :
    0 < cfgOkFetch.crawlDelay ∧
    delayAfterOkFetch (crawlWebsite cfgOkFetch "https://site/" 5).events = true :=
  ⟨by decide,
    crawlWebsite_delay_after_successful_fetch cfgOkFetch "https://site/" 5 (by decide)⟩

/-- A network on which every fetch throws. -/
def cfgFailFetch : CrawlConfig :=
  { world := fun _ => FetchOutcome.failure "timeout"
    robotsAllowed := fun _ => true
    maxPages := 20
    crawlDelay := 1000 }

/-- C4 (counterexample): the claim says the configured positive delay is
applied after the fetch on the error path as well.  It is not: crawling
a seed whose fetch fails, with `crawlDelay = 1000 > 0`, produces the
trace `[fetch (failed)]` with no delay event at all. -/
theorem crawl_delay_skipped_on_fetch_error :
    0 < cfgFailFetch.crawlDelay ∧
    (crawlWebsite cfgFailFetch "https://site/" 5).events =
      [CrawlEvent.fetch "https://site/" false] ∧
    delayAfterEveryFetch (crawlWebsite cfgFailFetch "https://site/" 5).events =
      false := by
  decide

/-- Witness for C6 at concrete inputs. -/
theorem crawlWebsite_budget_and_fetch_once_witness :
    (crawlWebsite cfgOkFetch "https://site/" 5).pages.length ≤ cfgOkFetch.maxPages ∧
    (fetchedUrls (crawlWebsite cfgOkFetch "https://site/" 5).events).Nodup ∧
    (∀ v ∈ fetchedUrls (crawlWebsite cfgOkFetch "https://site/" 5).events,
      v ∈ (crawlWebsite cfgOkFetch "https://site/" 5).visited) :=
  crawlWebsite_budget_and_fetch_once cfgOkFetch "https://site/" 5

/-- Witness for C8 at concrete inputs. -/
theorem buildAzureRequestBody_shape_witness :
    ((buildAzureRequestBody "my-o1-mini" "sys" "hi").messages.map Prod.fst =
      if isO1Model "my-o1-mini" then ["user"] else ["system", "user"]) ∧
    ((buildAzureRequestBody "my-o1-mini" "sys" "hi").max_completion_tokens.isSome =
      isO1Model "my-o1-mini") ∧
    ((buildAzureRequestBody "my-o1-mini" "sys" "hi").max_tokens.isSome =
      !isO1Model "my-o1-mini") ∧
    ((buildAzureRequestBody "my-o1-mini" "sys" "hi").temperature.isSome =
      !isO1Model "my-o1-mini") ∧
    ((buildAzureRequestBody "my-o1-mini" "sys" "hi").top_p.isSome =
      !isO1Model "my-o1-mini") ∧
    ((buildAzureRequestBody "my-o1-mini" "sys" "hi").frequency_penalty.isSome =
      !isO1Model "my-o1-mini") ∧
    ((buildAzureRequestBody "my-o1-mini" "sys" "hi").presence_penalty.isSome =
      !isO1Model "my-o1-mini") :=
  buildAzureRequestBody_shape "my-o1-mini" "sys" "hi"

/-- Witness for C10 at concrete inputs. -/
theorem chunkText_terminates_iff_witness :
    ((∃ fuel, (chunkLoop (jsSplitWs "a b c") 4 1 fuel 0 []).isSome = true) ↔
      (1 : Int) < 4) ∧
    ((chunkText "a b c" 4 1).isSome = true ↔ (1 : Int) < 4) :=
  chunkText_terminates_iff_overlap_lt_size "a b c" 4 1
